import Mathlib

/-!
Shallow embedding of the CLIMCAPS daily sub-aggregation module
(climcaps_subaggregation.py) and proofs about its claims.

The module resolves one (year, day-of-year) into a list of granules,
downloads or streams them, loads per-variable arrays, concatenates along
the leading "atrack" axis, and writes a single netCDF output.

External collaborators (earthaccess catalog/search, the netCDF4 library,
the filesystem) are modelled as parameters or abstracted inputs; the
logic of the repository's own functions is translated statement by
statement.
-/

namespace Climcaps

/-- Python exception kinds that the embedded code can raise.
"formatErr n" stands for an arbitrary error raised by the netCDF parsing
collaborator (not by the repository's own code), kept distinct from the
transport error "osError". -/
inductive Err
  | indexError
  | keyError
  | valueError
  | typeError
  | osError
  | formatErr (code : Nat)
deriving DecidableEq, Repr

/-- The two boundary indices used by get_granule_list: Python index 0 and
Python index -1. -/
inductive BIdx
  | first
  | last
deriving DecidableEq, Repr

/-- Python sequence read at index 0 or -1 (raises IndexError on an empty
list, which optE models at call sites). -/
def pyGet (l : List α) : BIdx → Option α
  | .first => l.head?
  | .last => l.getLast?

/-- Python list.pop at index 0 or -1 (the element removal performed by
get_granule_list; callers only pop after a successful pyGet). -/
def pyPop (l : List α) : BIdx → List α
  | .first => l.tail
  | .last => l.dropLast

/-- Split a character list on a separator character, with Python
str.split single-separator semantics: "a.b." splits into ["a","b",""] and
"" splits into [""]. -/
def splitOnChar (c : Char) : List Char → List (List Char)
  | [] => [[]]
  | x :: xs =>
    let r := splitOnChar c xs
    if x = c then [] :: r
    else
      match r with
      | [] => [[x]]
      | y :: ys => (x :: y) :: ys

/-- Python str.split with a one-character separator, over Lean strings. -/
def pySplit (s : String) (c : Char) : List String :=
  (splitOnChar c s.data).map (fun l => ⟨l⟩)

/-- Python string slice s[:n]. -/
def pyTake (s : String) (n : Nat) : String :=
  ⟨s.data.take n⟩

/-- A catalog granule handle: the only capability get_granule_list uses is
its ordered list of data-link URLs. -/
structure Granule where
  dataLinks : List String
deriving DecidableEq, Repr

/-- One boundary check of get_granule_list, for idx in (0, -1):
filename = granule_list[idx].data_links()[idx].split('/')[-1]
ymd = filename.split('.')[3][:8]
if ymd != expected_ymd: granule_list.pop(idx).
Note that the source indexes data_links() with the same idx as the
granule list. A split('/') result is never empty, so taking its last
element cannot fail; the [3] segment access can raise IndexError. -/
def checkBoundary (expected : String) (gl : List Granule) (i : BIdx) :
    Except Err (List Granule) :=
  match pyGet gl i with
  | none => .error .indexError
  | some g =>
    match pyGet g.dataLinks i with
    | none => .error .indexError
    | some link =>
      let filename := (pySplit link '/').getLastD ""
      match (pySplit filename '.').get? 3 with
      | none => .error .indexError
      | some seg =>
        if pyTake seg 8 ≠ expected then .ok (pyPop gl i) else .ok gl

/-- The trimming logic of get_granule_list, lines 51-59 of the source:
given the raw earthaccess.search_data result and the requested day token
expected_ymd (window_start formatted as YYYYMMDD), check the first and
the last entry and pop each whose embedded date token differs from the
requested day. The catalog query itself is an external collaborator; its
result list is the input here. -/
def get_granule_list (expected : String) (gl : List Granule) :
    Except Err (List Granule) :=
  if gl.length > 0 then
    match checkBoundary expected gl .first with
    | .error e => .error e
    | .ok gl1 => checkBoundary expected gl1 .last
  else .ok gl

/-- Token of a granule's data link at a boundary position: basename of
the link, 4th dot-separated segment, first 8 characters. none when the
link or the segment does not exist. -/
def tokenAt (g : Granule) (i : BIdx) : Option String :=
  match pyGet g.dataLinks i with
  | none => none
  | some link =>
    match (pySplit ((pySplit link '/').getLastD "") '.').get? 3 with
    | none => none
    | some seg => some (pyTake seg 8)

/-- Modelled from the spec: the trimming policy as the claim words it,
for comparison with get_granule_list. Both the first and the last entry
are judged by the token embedded in their PRIMARY (first) data-link URL,
and a boundary entry is dropped exactly when that token differs from the
requested day. -/
def claimTrim (expected : String) (gl : List Granule) : List Granule :=
  if gl.length > 0 then
    let dropFirst : Bool :=
      match gl.head? with
      | some g => ((tokenAt g .first).getD "") != expected
      | none => false
    let gl1 := if dropFirst then gl.tail else gl
    let dropLast : Bool :=
      match gl1.getLast? with
      | some g => ((tokenAt g .first).getD "") != expected
      | none => false
    if dropLast then gl1.dropLast else gl1
  else gl

/-! ## Transfer retry wrapper (_earthaccess_download) -/

/-- One entry of the list returned by the earthaccess.download collaborator:
either a filename string (success) or a non-string error marker (the
library substitutes Exception objects for failed files). -/
inductive DLRes
  | path (s : String)
  | errMarker
deriving DecidableEq, Repr

/-- check_list.count(str): the number of string-valued entries of a
download result list. -/
def countStr (files : List DLRes) : Nat :=
  (files.filter (fun f => match f with | .path _ => true | .errMarker => false)).length

/-- The mutable state of the retry loop in _earthaccess_download:
num_tries, num_downloaded_files, the number of download calls issued so
far (to index the collaborator's per-call results), and the files
variable, which is unassigned (none) until the first loop iteration. -/
structure DLState where
  numTries : Nat
  numDownloaded : Nat
  calls : Nat
  files : Option (List DLRes)
deriving DecidableEq, Repr

/-- The loop guard of _earthaccess_download:
(num_tries < max_num_tries) and (num_downloaded_files < num_expected_files),
with max_num_tries = 3. -/
def dlGuard (expected : Nat) (s : DLState) : Bool :=
  s.numTries < 3 && s.numDownloaded < expected

/-- One iteration of the loop body of _earthaccess_download:
files = earthaccess.download(granule_list, tmp_dir);
check_list = list(map(type, files));
num_downloaded_files = check_list.count(str).
The source increments no try counter inside the loop body, so numTries is
carried through unchanged. dl gives the collaborator's result for each
successive call. -/
def dlStep (dl : Nat → List DLRes) (s : DLState) : DLState :=
  let files := dl s.calls
  { numTries := s.numTries
    numDownloaded := countStr files
    calls := s.calls + 1
    files := some files }

/-- The while loop of _earthaccess_download, run with explicit fuel: some
final state when the guard becomes false within the given number of
iterations, none when the fuel is exhausted with the guard still true
(i.e. the concrete Python loop would still be running). -/
def dlRun (dl : Nat → List DLRes) (expected : Nat) : Nat → DLState → Option DLState
  | 0, s => if dlGuard expected s then none else some s
  | fuel + 1, s =>
    if dlGuard expected s then dlRun dl expected fuel (dlStep dl s) else some s

/-! ## Array model (numpy arrays as loaded from netCDF variables) -/

/-- The element type tag of a loaded numpy array: a concrete numeric
dtype, or the generic object dtype (dtype == object in the source). -/
inductive DType
  | numeric
  | object
deriving DecidableEq, Repr

/-- A Python value stored as an array element or an attribute value:
an integer, a text string, or some other (non-string) object. -/
inductive PyElem
  | i (z : Int)
  | s (v : String)
  | o (n : Nat)
deriving DecidableEq, Repr

/-- A numpy array: its dtype tag, its shape, and its elements flattened
in row-major order (the .flat view used by the source). -/
structure NpArr where
  dtype : DType
  shape : List Nat
  flat : List PyElem
deriving DecidableEq, Repr

/-- ndarray.copy(): a fresh array with the same dtype, shape and
contents. At the value level the copy equals the original; the heap model
below makes the freshness visible. -/
def npCopy (a : NpArr) : NpArr :=
  ⟨a.dtype, a.shape, a.flat⟩

/-- np.concatenate([a, b], axis=0): the leading extents add, the
remaining shape is the first operand's, and the flattened contents are
appended. -/
def npConcat0 (a b : NpArr) : NpArr :=
  ⟨a.dtype, (a.shape.headD 0 + b.shape.headD 0) :: a.shape.tail, a.flat ++ b.flat⟩

/-- type(arr.flat[0]) == str: the first flattened element exists and is a
Python string. -/
def isStrHead (a : NpArr) : Bool :=
  match a.flat.head? with
  | some (.s _) => true
  | _ => false

/-! ## Dictionaries (Python dicts as insertion-ordered association lists) -/

/-- Python dict lookup d[k] (first matching key; dict keys are unique so
at most one entry matches). none models a KeyError raised at call sites. -/
def dlookup (m : List (String × α)) (k : String) : Option α :=
  match m with
  | [] => none
  | (k2, v) :: rest => if k2 = k then some v else dlookup rest k

/-- Python dict assignment d[k] = v: update the entry in place if the key
exists, else append a new entry (insertion order preserved). -/
def dset (m : List (String × α)) (k : String) (v : α) : List (String × α) :=
  match m with
  | [] => [(k, v)]
  | (k2, v2) :: rest => if k2 = k then (k2, v) :: rest else (k2, v2) :: dset rest k v

/-- One loaded-granule data record: the dat dictionary mapping variable
name to its loaded array. -/
abbrev Dat := List (String × NpArr)

/-- The per-variable dimension descriptor stored by the loader:
dims[v] = two parallel lists, 'names' and 'sizes'. -/
structure DimEntry where
  names : List String
  sizes : List Nat
deriving DecidableEq, Repr

/-- The dims dictionary returned by the loader, keyed by variable name. -/
abbrev Dims := List (String × DimEntry)

/-- Per-variable attribute maps, keyed by variable name. -/
abbrev Attrs := List (String × List (String × PyElem))

/-! ## Aggregator (concat_granules), value-level embedding -/

/-- The per-variable step of the folding loop of concat_granules:
if dims[v]['names'] == []: continue;
if 'atrack' in dims[v]['names']:
cdat[v] = np.concatenate([cdat[v], dat[v]], axis=0).
A variable whose descriptor has dimension names but no atrack is left
untouched (no else branch in the source). -/
def concatVar (dims : Dims) (cdat : Dat) (v : String) (a : NpArr) :
    Except Err Dat :=
  match dlookup dims v with
  | none => .error .keyError
  | some de =>
    if de.names = [] then .ok cdat
    else if de.names.contains "atrack" then
      match dlookup cdat v with
      | none => .error .keyError
      | some cur => .ok (dset cdat v (npConcat0 cur a))
    else .ok cdat

/-- The inner loop (for v in dat) of concat_granules over one subsequent
granule record. -/
def concatFold (dims : Dims) (cdat : Dat) : Dat → Except Err Dat
  | [] => .ok cdat
  | (v, a) :: rest =>
    match concatVar dims cdat v a with
    | .error e => .error e
    | .ok c2 => concatFold dims c2 rest

/-- The outer loop (for dat in dat_list[1:]) of concat_granules. -/
def concatAll (dims : Dims) (cdat : Dat) : List Dat → Except Err Dat
  | [] => .ok cdat
  | dat :: rest =>
    match concatFold dims cdat dat with
    | .error e => .error e
    | .ok c2 => concatAll dims c2 rest

/-- Python list index-0 assignment l[0] = x, raising IndexError on an
empty list. -/
def pySetHead (l : List Nat) (x : Nat) : Except Err (List Nat) :=
  match l with
  | [] => .error .indexError
  | _ :: t => .ok (x :: t)

/-- The reconciliation step of concat_granules for one variable of cdat:
copy dims[v]'s names and sizes, and when the leading dimension name is
'atrack', overwrite sizes[0] with cdat[v].shape[0]. -/
def reconcileVar (dims : Dims) (v : String) (a : NpArr) :
    Except Err (String × DimEntry) :=
  match dlookup dims v with
  | none => .error .keyError
  | some de =>
    if de.names.length > 0 ∧ de.names.headD "" = "atrack" then
      match a.shape.head? with
      | none => .error .indexError
      | some sz =>
        match pySetHead de.sizes sz with
        | .error e => .error e
        | .ok sizes2 => .ok (v, ⟨de.names, sizes2⟩)
    else .ok (v, ⟨de.names, de.sizes⟩)

/-- The cdims loop (for v in cdat) of concat_granules. -/
def reconcileAll (dims : Dims) : Dat → Except Err (List (String × DimEntry))
  | [] => .ok []
  | (v, a) :: rest =>
    match reconcileVar dims v a with
    | .error e => .error e
    | .ok entry =>
      match reconcileAll dims rest with
      | .error e => .error e
      | .ok tail => .ok (entry :: tail)

/-- concat_granules(dat_list, dims): seed cdat with copies of the first
record's arrays, fold every subsequent record with concatFold, then build
cdims by reconciling each variable of cdat. -/
def concat_granules (datList : List Dat) (dims : Dims) :
    Except Err (Dat × List (String × DimEntry)) :=
  match datList.head? with
  | none => .error .indexError
  | some first =>
    let cdat0 : Dat := first.map (fun p => (p.1, npCopy p.2))
    match concatAll dims cdat0 datList.tail with
    | .error e => .error e
    | .ok cdat =>
      match reconcileAll dims cdat with
      | .error e => .error e
      | .ok cdims => .ok (cdat, cdims)

/-! ## Writer (write_cdat) -/

/-- The element type passed to createVariable: either the array's own
dtype, or the Python str type for object arrays of strings. -/
inductive OutDType
  | native (d : DType)
  | pyStr
deriving DecidableEq, Repr

/-- The dtype selection of write_cdat: an object-dtype array is accepted
only when its first flattened element is a Python str (output type str);
a non-string object array raises ValueError; any other dtype passes
through unchanged. An empty object array raises IndexError at the
flat[0] access. -/
def resolveOutputDtype (a : NpArr) : Except Err OutDType :=
  if a.dtype = .object then
    match a.flat.head? with
    | some (.s _) => .ok .pyStr
    | some _ => .error .valueError
    | none => .error .indexError
  else .ok (.native a.dtype)

/-- One variable as created in the output netCDF file: name, element
type, dimension-name tuple, the fill value passed to createVariable, the
assigned data, and the attributes written through the generic setncattr
path. -/
structure NCVar where
  name : String
  dtype : OutDType
  dimNames : List String
  fillValue : Option PyElem
  data : NpArr
  wattrs : List (String × PyElem)
deriving DecidableEq, Repr

/-- The output netCDF file: the declared dimensions (from the merged
dimension table) and the variables written so far. -/
structure NCFile where
  ncdims : List (String × Nat)
  vars : List NCVar
deriving DecidableEq, Repr

/-- The merged_dim_list OrderedDict of write_cdat: iterate every
variable's (name, size) pairs in order, inserting in first-seen order
with later sizes overwriting earlier ones for the same name. -/
def mergedDimList (dims : Dims) : List (String × Nat) :=
  dims.foldl
    (fun acc p => (p.2.names.zip p.2.sizes).foldl (fun acc2 q => dset acc2 q.1 q.2) acc)
    []

/-- The per-variable body of the write loop of write_cdat: read attrs[v],
take the fill value from the _FillValue attribute when present, resolve
the output dtype, create the variable with dims[v]['names'] and the fill
value, assign the data, and setncattr every attribute except _FillValue. -/
def writeVar (dims : Dims) (attrs : Attrs) (v : String) (arr : NpArr) :
    Except Err NCVar :=
  match dlookup attrs v with
  | none => .error .keyError
  | some am =>
    let fv := dlookup am "_FillValue"
    match resolveOutputDtype arr with
    | .error e => .error e
    | .ok od =>
      match dlookup dims v with
      | none => .error .keyError
      | some de =>
        .ok ⟨v, od, de.names, fv, arr, am.filter (fun p => p.1 ≠ "_FillValue")⟩

/-- The sequential write loop of write_cdat: variables are written in
order until the first raised exception; variables already written stay in
the file, the offending and all later variables are not written. -/
def writeVars (dims : Dims) (attrs : Attrs) : Dat → List NCVar × Except Err Unit
  | [] => ([], .ok ())
  | (v, arr) :: rest =>
    match writeVar dims attrs v arr with
    | .error e => ([], .error e)
    | .ok ncv =>
      let r := writeVars dims attrs rest
      (ncv :: r.1, r.2)

/-- write_cdat(cdat, dims, attrs, fname): build the merged dimension
table, declare it, then write every variable. The result is the file
contents produced (dimensions plus the variables written before any
exception) together with the write outcome. -/
def write_cdat (cdat : Dat) (dims : Dims) (attrs : Attrs) :
    NCFile × Except Err Unit :=
  let md := mergedDimList dims
  let r := writeVars dims attrs cdat
  (⟨md, r.1⟩, r.2)

/-! ## Loader (load_granule_from_s3) -/

/-- load_granule_from_s3(s3_obj, var_list): nc_bytes = s3_obj.read() is
the given byte payload; an empty payload raises OSError before any
parsing; otherwise the netCDF4 in-memory parse (an external collaborator,
here the parse parameter, whose own failures are format errors with their
code) runs exactly once on the payload. -/
def load_granule_from_s3 (ncBytes : List Nat)
    (parse : List Nat → Except Nat (Dat × Dims × Attrs)) :
    Except Err (Dat × Dims × Attrs) :=
  if ncBytes.length = 0 then .error .osError
  else
    match parse ncBytes with
    | .ok r => .ok r
    | .error c => .error (.formatErr c)

/-! ## Orchestrator (run_subagg) and the driver loop, as event traces -/

/-- The observable external operations of one day's unit. -/
inductive Event
  | catalogQuery
  | batchDownload
  | loadGranule
  | deleteLocal
  | openRemote
  | readRemote
  | closeRemote
  | writeOutput
deriving DecidableEq, Repr

/-- The outcome of one day's unit: normal return, a raised error, or a
loop that exceeded the modelling fuel (still running). -/
inductive Outcome
  | ok
  | err (e : Err)
  | hang
deriving DecidableEq, Repr

/-- The environment of one run_subagg call: the os.access result for the
output path, the raw catalog query result, the requested day token, the
local_download flag and tmp_dir, the per-call download collaborator
results with a modelling fuel bound for the retry loop, and the s3
payload of each granule for the streaming path. -/
structure SubaggEnv where
  outputExists : Bool
  rawGranules : List Granule
  expectedYmd : String
  localDownload : Bool
  tmpDir : String
  dlResults : Nat → List DLRes
  dlFuel : Nat
  payloads : List (List Nat)

/-- os.path.join(tmp_dir, f) for one download result entry: a TypeError
when the entry is a non-string error marker. -/
def pyJoin1 (tmp : String) (f : DLRes) : Except Err String :=
  match f with
  | .path s => .ok (tmp ++ "/" ++ s)
  | .errMarker => .error .typeError

/-- The filepath list comprehension at the end of _earthaccess_download:
joining the tmp dir onto each returned entry, raising on non-string
entries. A none files value means the loop body never ran and the files
name is unbound (only reachable with an empty granule list); that raise
is mapped onto Err.typeError as well. -/
def pyJoinAll (tmp : String) : Option (List DLRes) → Except Err (List String)
  | none => .error .typeError
  | some files => files.mapM (pyJoin1 tmp)

/-- The streaming branch of run_subagg: for each s3 object in order,
load_granule_from_s3 reads it (readRemote); an empty payload raises
OSError and aborts the loop; otherwise the granule is loaded and the
object closed. -/
def streamLoads : List (List Nat) → List Event × Except Err Unit
  | [] => ([], .ok ())
  | p :: rest =>
    if p.length = 0 then ([Event.readRemote], .error .osError)
    else
      let r := streamLoads rest
      (Event.readRemote :: Event.loadGranule :: Event.closeRemote :: r.1, r.2)

/-- run_subagg(year, doy, platform, var_list, output_file, ...) as an
event trace: resolve the granule list (the catalog query), return after
the query when it is empty, otherwise fetch and load each granule by the
chosen path and write the output. Loading and aggregation contents are
abstracted: a granule load is the loadGranule event and the aggregate
write is the writeOutput event. run_subagg performs no check of
outputExists anywhere: the field is part of the environment but the
function never reads it. -/
def runSubagg (env : SubaggEnv) : List Event × Outcome :=
  match get_granule_list env.expectedYmd env.rawGranules with
  | .error e => ([Event.catalogQuery], .err e)
  | .ok gl =>
    if gl.length = 0 then ([Event.catalogQuery], .ok)
    else if env.localDownload then
      match dlRun env.dlResults gl.length env.dlFuel ⟨0, 0, 0, none⟩ with
      | none =>
        (Event.catalogQuery :: List.replicate env.dlFuel Event.batchDownload, .hang)
      | some s =>
        let dlEvents := List.replicate s.calls Event.batchDownload
        match pyJoinAll env.tmpDir s.files with
        | .error e => (Event.catalogQuery :: dlEvents, .err e)
        | .ok paths =>
          let loadEvents :=
            paths.foldr (fun _ acc => Event.loadGranule :: Event.deleteLocal :: acc) []
          (Event.catalogQuery :: dlEvents ++ loadEvents ++ [Event.writeOutput], .ok)
    else
      let r := streamLoads env.payloads
      match r.2 with
      | .error e => (Event.catalogQuery :: Event.openRemote :: r.1, .err e)
      | .ok _ =>
        (Event.catalogQuery :: Event.openRemote :: r.1 ++ [Event.writeOutput], .ok)

/-- The per-day body of the driver loop in ghg_project_production.py:
if os.access(output_file, os.R_OK): skip (continue) without calling
run_subagg; else call run_subagg. -/
def driverUnit (env : SubaggEnv) : List Event × Outcome :=
  if env.outputExists then ([], .ok) else runSubagg env

/-! ## Heap-instrumented embedding of concat_granules

The value-level embedding above cannot express aliasing, so the frame
claim about mutation is settled on this second, reference-passing
embedding of the same function: numpy arrays and the dims name/size lists
live in a heap of cells addressed by natural numbers, ndarray.copy,
np.concatenate and copy(list) allocate fresh cells, and the single
in-place update of the source (new_dim_sizes[0] = ...) is a heap write.
-/

/-- A heap cell: a numpy array, a list of dimension names, or a list of
dimension sizes. -/
inductive HVal
  | arr (a : NpArr)
  | strs (l : List String)
  | nats (l : List Nat)
deriving DecidableEq, Repr

/-- The Python object heap: cell contents by address plus the next fresh
address. Addresses below next are the allocated ones. -/
structure Heap where
  mem : Nat → HVal
  next : Nat

/-- Allocate a fresh cell holding v, returning its address. -/
def halloc (h : Heap) (v : HVal) : Nat × Heap :=
  (h.next, ⟨fun i => if i = h.next then v else h.mem i, h.next + 1⟩)

/-- Overwrite the cell at address i (the in-place list element
assignment). -/
def hset (h : Heap) (i : Nat) (v : HVal) : Heap :=
  ⟨fun j => if j = i then v else h.mem j, h.next⟩

/-- Read an array cell; any other content is a type confusion. -/
def hgetArr (h : Heap) (i : Nat) : Except Err NpArr :=
  match h.mem i with
  | .arr a => .ok a
  | _ => .error .typeError

/-- Read a dimension-names cell. -/
def hgetStrs (h : Heap) (i : Nat) : Except Err (List String) :=
  match h.mem i with
  | .strs l => .ok l
  | _ => .error .typeError

/-- Read a dimension-sizes cell. -/
def hgetNats (h : Heap) (i : Nat) : Except Err (List Nat) :=
  match h.mem i with
  | .nats l => .ok l
  | _ => .error .typeError

/-- One loaded-granule record with its arrays by reference: the dat
dictionary maps variable names to heap addresses of arrays. -/
abbrev DatH := List (String × Nat)

/-- The dims[v] descriptor by reference: addresses of the 'names' and
'sizes' list objects. -/
structure DimRefs where
  namesRef : Nat
  sizesRef : Nat
deriving DecidableEq, Repr

/-- The dims dictionary by reference. -/
abbrev DimsH := List (String × DimRefs)

/-- dat_list[0][v].copy(): read the array and allocate a fresh copy. -/
def copyArrRef (h : Heap) (r : Nat) : Except Err (Nat × Heap) :=
  match hgetArr h r with
  | .error e => .error e
  | .ok a => .ok (halloc h (.arr (npCopy a)))

/-- The seeding loop of concat_granules:
cdat = \x7b\x7d; for v in dat_list[0]: cdat[v] = dat_list[0][v].copy(). -/
def seedCdat (h : Heap) : DatH → Except Err (DatH × Heap)
  | [] => .ok ([], h)
  | (v, r) :: rest =>
    match copyArrRef h r with
    | .error e => .error e
    | .ok rh =>
      match seedCdat rh.2 rest with
      | .error e => .error e
      | .ok th => .ok ((v, rh.1) :: th.1, th.2)

/-- The per-variable step of the folding loop, on the heap: read
dims[v]['names']; skip empty descriptors; for atrack variables read both
arrays, allocate the concatenation and rebind cdat[v] to it. -/
def concatVarH (dims : DimsH) (h : Heap) (cdat : DatH) (v : String) (r : Nat) :
    Except Err (DatH × Heap) :=
  match dlookup dims v with
  | none => .error .keyError
  | some dref =>
    match hgetStrs h dref.namesRef with
    | .error e => .error e
    | .ok names =>
      if names = [] then .ok (cdat, h)
      else if names.contains "atrack" then
        match dlookup cdat v with
        | none => .error .keyError
        | some cref =>
          match hgetArr h cref with
          | .error e => .error e
          | .ok cur =>
            match hgetArr h r with
            | .error e => .error e
            | .ok a =>
              let rh := halloc h (.arr (npConcat0 cur a))
              .ok (dset cdat v rh.1, rh.2)
      else .ok (cdat, h)

/-- The inner loop (for v in dat) over one subsequent record, on the
heap. -/
def concatFoldH (dims : DimsH) (h : Heap) (cdat : DatH) :
    DatH → Except Err (DatH × Heap)
  | [] => .ok (cdat, h)
  | (v, r) :: rest =>
    match concatVarH dims h cdat v r with
    | .error e => .error e
    | .ok ch => concatFoldH dims ch.2 ch.1 rest

/-- The outer loop (for dat in dat_list[1:]), on the heap. -/
def concatAllH (dims : DimsH) (h : Heap) (cdat : DatH) :
    List DatH → Except Err (DatH × Heap)
  | [] => .ok (cdat, h)
  | dat :: rest =>
    match concatFoldH dims h cdat dat with
    | .error e => .error e
    | .ok ch => concatAllH dims ch.2 ch.1 rest

/-- The reconciliation step for one variable of cdat, on the heap:
new_dim_names = copy(dims[v]['names']) and new_dim_sizes =
copy(dims[v]['sizes']) allocate fresh list cells; when the leading name
is 'atrack', new_dim_sizes[0] = cdat[v].shape[0] writes the fresh sizes
cell in place. -/
def reconcileVarH (dims : DimsH) (h : Heap) (v : String) (arrRef : Nat) :
    Except Err ((String × DimRefs) × Heap) :=
  match dlookup dims v with
  | none => .error .keyError
  | some dref =>
    match hgetStrs h dref.namesRef with
    | .error e => .error e
    | .ok names =>
      let nh := halloc h (.strs names)
      match hgetNats nh.2 dref.sizesRef with
      | .error e => .error e
      | .ok sizes =>
        let sh := halloc nh.2 (.nats sizes)
        if names.length > 0 ∧ names.headD "" = "atrack" then
          match hgetArr sh.2 arrRef with
          | .error e => .error e
          | .ok a =>
            match a.shape.head? with
            | none => .error .indexError
            | some sz =>
              match sizes with
              | [] => .error .indexError
              | _ :: t => .ok ((v, ⟨nh.1, sh.1⟩), hset sh.2 sh.1 (.nats (sz :: t)))
        else .ok ((v, ⟨nh.1, sh.1⟩), sh.2)

/-- The cdims loop (for v in cdat), on the heap. -/
def reconcileAllH (dims : DimsH) (h : Heap) :
    DatH → Except Err (List (String × DimRefs) × Heap)
  | [] => .ok ([], h)
  | (v, r) :: rest =>
    match reconcileVarH dims h v r with
    | .error e => .error e
    | .ok eh =>
      match reconcileAllH dims eh.2 rest with
      | .error e => .error e
      | .ok th => .ok (eh.1 :: th.1, th.2)

/-- concat_granules on the heap model: seed from the first record, fold
the rest, reconcile the dimension descriptors. -/
def concat_granulesH (datList : List DatH) (dims : DimsH) (h : Heap) :
    Except Err ((DatH × List (String × DimRefs)) × Heap) :=
  match datList.head? with
  | none => .error .indexError
  | some first =>
    match seedCdat h first with
    | .error e => .error e
    | .ok sh =>
      match concatAllH dims sh.2 sh.1 datList.tail with
      | .error e => .error e
      | .ok ch =>
        match reconcileAllH dims ch.2 ch.1 with
        | .error e => .error e
        | .ok rh => .ok ((ch.1, rh.1), rh.2)

/-! ## Decidable equality for evaluating the embedding on concrete inputs -/

deriving instance DecidableEq for Except

/-! ## Measurement helper used in claim statements -/

/-- The leading-axis extent of the array a record holds for a variable
(0 when the record lacks the variable; the claims only use it where the
variable is present). -/
def leadExtent (dat : Dat) (v : String) : Nat :=
  match dlookup dat v with
  | some a => a.shape.headD 0
  | none => 0

/-! ## Concrete inputs for counterexamples and witnesses -/

/-- A single granule whose embedded date token is 20150101. -/
def staleGranule : Granule :=
  ⟨["https://host/SNDR.SNPP.CRIMSS.20150101T2354.m06.g240.L2.nc"]⟩

/-- A granule of the requested day 20150101, one data link. -/
def dayGranule : Granule :=
  ⟨["https://host/SNDR.SNPP.CRIMSS.20150101T0006.m06.g001.L2.nc"]⟩

/-- A granule whose first data link embeds 20150101 but whose last data
link embeds 20150102 (two links with different basenames). -/
def multiLinkGranule : Granule :=
  ⟨["https://host/SNDR.SNPP.CRIMSS.20150101T2354.m06.g240.L2.nc",
    "s3://bucket/SNDR.SNPP.CRIMSS.20150102T0006.m06.g001.L2.nc"]⟩

/-- An orchestrator environment whose output path already exists and is
readable, with one valid granule of the requested day available via the
streaming path. -/
def existingOutputEnv : SubaggEnv :=
  { outputExists := true
    rawGranules := [dayGranule]
    expectedYmd := "20150101"
    localDownload := false
    tmpDir := "climcaps_subagg_tmp"
    dlResults := fun _ => []
    dlFuel := 3
    payloads := [[1]] }

def wArr1 : NpArr := ⟨.numeric, [2], [.i 1, .i 2]⟩

def wArr2 : NpArr := ⟨.numeric, [3], [.i 3, .i 4, .i 5]⟩

def wStatic1 : NpArr := ⟨.numeric, [], [.i 7]⟩

def wStatic2 : NpArr := ⟨.numeric, [], [.i 8]⟩

def wDims : Dims := [("lat", ⟨["atrack"], [2]⟩), ("land_frac", ⟨[], []⟩)]

def wDat1 : Dat := [("lat", wArr1), ("land_frac", wStatic1)]

def wDat2 : Dat := [("lat", wArr2), ("land_frac", wStatic2)]

def wStrArr : NpArr := ⟨.object, [1], [.s "abc"]⟩

def wCdat7 : Dat := [("vname", wStrArr), ("lat", wArr1)]

def wDims7 : Dims := [("vname", ⟨["atrack"], [1]⟩), ("lat", ⟨["atrack"], [2]⟩)]

def wAttrs7 : Attrs := [("vname", []), ("lat", [])]

def wCdat8 : Dat := [("lat", wArr1)]

def wAttrs8 : Attrs := [("lat", [("_FillValue", .i (-9999)), ("units", .s "K")])]

/-- A four-cell initial heap: the two input arrays and the dims name and
size lists of the single variable lat. -/
def wHeap : Heap :=
  ⟨fun i =>
    if i = 0 then .arr wArr1
    else if i = 1 then .arr wArr2
    else if i = 2 then .strs ["atrack"]
    else .nats [2], 4⟩

def wDimsH : DimsH := [("lat", ⟨2, 3⟩)]

def wDatListH : List DatH := [[("lat", 0)], [("lat", 1)]]

/-- The result of running the heap-model concat_granules on the concrete
witness input (total by construction; the error arm is unreachable). -/
def wOut : (DatH × List (String × DimRefs)) × Heap :=
  match concat_granulesH wDatListH wDimsH wHeap with
  | .ok out => out
  | .error _ => (([], []), wHeap)

/-! ## Theorems -/






/-- Helper for claim C1: from any loop state with numTries = 0 and
numDownloaded = 0, an always-failing download collaborator keeps the
guard true forever, whatever the fuel. -/
theorem dlRun_stuck (fuel calls : Nat) (files : Option (List DLRes)) :
    dlRun (fun _ => [DLRes.errMarker]) 1 fuel ⟨0, 0, calls, files⟩ = none := by
  induction fuel generalizing calls files with
  | zero => simp [dlRun, dlGuard]
  | succ n ih => simpa [dlRun, dlGuard, dlStep, countStr] using ih (calls + 1) _

/-- Claim C1 (code bug evidence): the claim says the batch download is
invoked at most 3 times and the wrapper terminates; but the source never
increments num_tries inside the loop, so with a collaborator returning a
non-path error marker on every attempt and one requested granule, the
while loop of earthaccess download retry never exits: for every fuel
bound the loop is still running. -/
theorem dl_retry_loop_never_terminates (fuel : Nat) :
    dlRun (fun _ => [DLRes.errMarker]) 1 fuel ⟨0, 0, 0, none⟩ = none :=
  dlRun_stuck fuel 0 none

/-- Claim C3 (code bug evidence): on a raw catalog result of exactly one
granule whose embedded token 20150101 differs from the requested day
20150102, the first boundary pass pops the only entry and the second
boundary pass indexes the now-empty list, raising IndexError, where the
claim requires an error-free return of the trimmed (empty) list. -/
theorem single_stale_granule_raises :
    get_granule_list "20150102" [staleGranule] = .error .indexError := by rfl

/-- Claim C2 counterexample: a two-entry result whose last granule's
first data link embeds the requested day 20150101 but whose last data
link embeds 20150102. The claim (token always from the primary, first
link) predicts both entries are kept, as claimTrim computes; the source
indexes data links with the same idx as the granule list, judges the
last entry by its last link, and drops it. -/
theorem trim_judges_last_entry_by_last_link_cex :
    get_granule_list "20150101" [dayGranule, multiLinkGranule] = .ok [dayGranule] ∧
    claimTrim "20150101" [dayGranule, multiLinkGranule] = [dayGranule, multiLinkGranule] :=
  ⟨by decide, by decide⟩

/-- Claim C9: load_granule_from_s3 raises the transport error OSError
exactly when the remote read returned an empty payload, before and
independent of any parsing; on a non-empty payload the result is exactly
one run of the parsing collaborator, whose failures surface as format
errors, never as the transport error; the loader performs no retry. -/
theorem load_granule_from_s3_transport_error (ncBytes : List Nat)
    (parse : List Nat → Except Nat (Dat × Dims × Attrs)) :
    (load_granule_from_s3 ncBytes parse = .error .osError ↔ ncBytes = []) ∧
    (ncBytes ≠ [] → load_granule_from_s3 ncBytes parse =
      match parse ncBytes with
      | .ok r => .ok r
      | .error c => .error (.formatErr c)) := by
  refine ⟨⟨fun h => ?_, fun h => by simp [load_granule_from_s3, h]⟩, fun h => ?_⟩
  · by_contra hne
    have hlen : ¬ ncBytes.length = 0 := by simpa using hne
    simp only [load_granule_from_s3, if_neg hlen] at h
    cases hp : parse ncBytes <;> rw [hp] at h <;> simp at h
  · have : ncBytes.length ≠ 0 := by simpa using h
    simp [load_granule_from_s3, this]


/-- Claim C4 counterexample: in an environment whose output path already
exists and is readable, run_subagg still issues the catalog query and
still writes the output: the function contains no existence check. -/
theorem run_subagg_ignores_existing_output_cex :
    existingOutputEnv.outputExists = true ∧
    Event.catalogQuery ∈ (runSubagg existingOutputEnv).1 ∧
    Event.writeOutput ∈ (runSubagg existingOutputEnv).1 :=
  ⟨rfl, by decide, by decide⟩

/-- Claim C4 (amended): the skip-if-exists check lives in the driver
scripts, not in run_subagg: the driver's per-day loop body performs no
catalog query, no fetch, no load, and no write when the output path is
readable, because it skips before ever invoking run_subagg. -/
theorem driver_skips_existing_output (env : SubaggEnv)
    (h : env.outputExists = true) : driverUnit env = ([], .ok) := by
  simp [driverUnit, h]

theorem driver_skips_existing_output_witness :
    existingOutputEnv.outputExists = true ∧
    driverUnit existingOutputEnv = ([], .ok) :=
  ⟨rfl, driver_skips_existing_output existingOutputEnv rfl⟩

/-- Helper for claim C2: one boundary pass of get_granule_list pops the
entry at the boundary exactly when the token extracted from the data
link at the mirrored index differs from the requested day. -/
theorem checkBoundary_eq_of_token (expected : String) (gl : List Granule)
    (i : BIdx) (g : Granule) (t : String)
    (hg : pyGet gl i = some g) (ht : tokenAt g i = some t) :
    checkBoundary expected gl i =
      .ok (if t ≠ expected then pyPop gl i else gl) := by
  unfold tokenAt at ht
  unfold checkBoundary
  simp only [hg]
  cases hl : pyGet g.dataLinks i with
  | none => rw [hl] at ht; exact Option.noConfusion ht
  | some link =>
    simp only [hl] at ht ⊢
    cases hs : (pySplit ((pySplit link '/').getLastD "") '.').get? 3 with
    | none => rw [hs] at ht; exact Option.noConfusion ht
    | some seg =>
      rw [hs] at ht
      simp only [Option.some.injEq] at ht
      subst ht
      simp only [hs]
      by_cases hc : pyTake seg 8 ≠ expected
      · simp [hc]
      · simp [hc]

/-- Claim C2 (amended): for every catalog query result with at least two
entries whose boundary tokens are extractable, get_granule_list judges
the first entry by the token of its first data link and the last entry
by the token of its last data link (the link index mirrors the boundary
position), dropping a boundary entry exactly when that token differs
from the requested day. -/
theorem get_granule_list_c2_amended (expected : String)
    (gl : List Granule) (gFirst gLast : Granule) (t1 t2 : String)
    (h2 : 2 ≤ gl.length)
    (hf : gl.head? = some gFirst)
    (hl : gl.getLast? = some gLast)
    (ht1 : tokenAt gFirst .first = some t1)
    (ht2 : tokenAt gLast .last = some t2) :
    get_granule_list expected gl =
      .ok (let gl1 := if t1 ≠ expected then gl.tail else gl
           if t2 ≠ expected then gl1.dropLast else gl1) := by
  cases gl with
  | nil => simp at h2
  | cons x gl2 =>
    cases gl2 with
    | nil => simp at h2
    | cons y rest =>
      have hf2 : gFirst = x := by simpa using hf.symm
      subst hf2
      have hlast : (y :: rest).getLast? = some gLast := by
        rw [← List.getLast?_cons_cons]
        exact hl
      have hlen : (gFirst :: y :: rest).length > 0 := by simp
      have hcb1 := checkBoundary_eq_of_token expected (gFirst :: y :: rest) .first
        gFirst t1 (by simp [pyGet]) ht1
      unfold get_granule_list
      rw [if_pos hlen, hcb1]
      by_cases hd1 : t1 ≠ expected
      · simp only [if_pos hd1]
        have hcb2 := checkBoundary_eq_of_token expected (y :: rest) .last
          gLast t2 (by simpa [pyGet] using hlast) ht2
        simpa [pyPop] using hcb2
      · simp only [if_neg hd1]
        have hcb2 := checkBoundary_eq_of_token expected (gFirst :: y :: rest) .last
          gLast t2 (by simpa [pyGet] using hl) ht2
        simpa [pyPop] using hcb2


theorem dlookup_dset_self (m : List (String × α)) (k : String) (v : α) :
    dlookup (dset m k v) k = some v := by
  induction m with
  | nil => simp [dset, dlookup]
  | cons p rest ih =>
    by_cases h : p.1 = k
    · simp [dset, dlookup, h]
    · simp [dset, dlookup, h, ih]

theorem dlookup_dset_ne (m : List (String × α)) (k k' : String) (v : α)
    (h : k' ≠ k) : dlookup (dset m k v) k' = dlookup m k' := by
  induction m with
  | nil => simp [dset, dlookup, Ne.symm h]
  | cons p rest ih =>
    by_cases hp : p.1 = k
    · simp [dset, dlookup, hp, Ne.symm h]
    · simp [dset, dlookup, hp, ih]

theorem mem_dset (m : List (String × α)) (k : String) (v : α) (p : String × α)
    (hp : p ∈ dset m k v) : p = (k, v) ∨ p ∈ m := by
  induction m with
  | nil => simpa [dset] using hp
  | cons q rest ih =>
    by_cases hq : q.1 = k
    · simp only [dset, if_pos hq, List.mem_cons] at hp
      rcases hp with h | h
      · left; rw [h, ← hq]
      · right; simp [h]
    · simp only [dset, if_neg hq, List.mem_cons] at hp
      rcases hp with h | h
      · right; simp [h]
      · rcases ih h with h2 | h2
        · exact Or.inl h2
        · exact Or.inr (List.mem_cons_of_mem _ h2)

/- concatVar success characterizations -/

theorem concatVar_ok_frame (dims : Dims) (c c' : Dat) (w : String) (b : NpArr)
    (v : String) (hwv : w ≠ v)
    (h : concatVar dims c w b = .ok c') :
    dlookup c' v = dlookup c v := by
  unfold concatVar at h
  cases hd : dlookup dims w with
  | none => rw [hd] at h; exact Except.noConfusion h
  | some de =>
    rw [hd] at h
    by_cases h1 : de.names = []
    · simp only [if_pos h1] at h
      cases h; rfl
    · simp only [if_neg h1] at h
      by_cases h2 : de.names.contains "atrack"
      · simp only [if_pos h2] at h
        cases hc : dlookup c w with
        | none => rw [hc] at h; exact Except.noConfusion h
        | some cur =>
          rw [hc] at h
          cases h
          exact dlookup_dset_ne c w v _ (fun hh => hwv hh.symm)
      · simp only [if_neg h2] at h
        cases h; rfl

theorem concatVar_ok_self_noatrack (dims : Dims) (c c' : Dat) (b : NpArr)
    (v : String) (de : DimEntry)
    (hde : dlookup dims v = some de) (hna : ¬ de.names.contains "atrack")
    (h : concatVar dims c v b = .ok c') :
    c' = c := by
  unfold concatVar at h
  rw [hde] at h
  by_cases h1 : de.names = []
  · simp only [if_pos h1] at h; cases h; rfl
  · simp only [if_neg h1, if_neg hna] at h; cases h; rfl

theorem concatVar_ok_self_atrack (dims : Dims) (c : Dat) (b : NpArr)
    (v : String) (de : DimEntry) (cur : NpArr)
    (hde : dlookup dims v = some de) (hna : de.names.contains "atrack")
    (hne : de.names ≠ [])
    (hcur : dlookup c v = some cur) :
    concatVar dims c v b = .ok (dset c v (npConcat0 cur b)) := by
  unfold concatVar
  rw [hde]
  simp only [if_neg hne, if_pos hna, hcur]


theorem concatFold_preserves (dims : Dims) (v : String) (de : DimEntry)
    (hde : dlookup dims v = some de) (hna : ¬ de.names.contains "atrack") :
    ∀ (dat c c' : Dat), concatFold dims c dat = .ok c' →
    dlookup c' v = dlookup c v := by
  intro dat
  induction dat with
  | nil =>
    intro c c' h
    unfold concatFold at h
    cases h
    rfl
  | cons p rest ih =>
    intro c c' h
    unfold concatFold at h
    cases hcv : concatVar dims c p.1 p.2 with
    | error e => rw [hcv] at h; exact Except.noConfusion h
    | ok c2 =>
      rw [hcv] at h
      rw [ih c2 c' h]
      by_cases hw : p.1 = v
      · rw [hw] at hcv
        rw [concatVar_ok_self_noatrack dims c c2 p.2 v de hde hna hcv]
      · exact concatVar_ok_frame dims c c2 p.1 p.2 v hw hcv

theorem concatAll_preserves (dims : Dims) (v : String) (de : DimEntry)
    (hde : dlookup dims v = some de) (hna : ¬ de.names.contains "atrack") :
    ∀ (rest : List Dat) (c c' : Dat), concatAll dims c rest = .ok c' →
    dlookup c' v = dlookup c v := by
  intro rest
  induction rest with
  | nil =>
    intro c c' h
    unfold concatAll at h
    cases h
    rfl
  | cons dat rest2 ih =>
    intro c c' h
    unfold concatAll at h
    cases hcf : concatFold dims c dat with
    | error e => rw [hcf] at h; exact Except.noConfusion h
    | ok c2 =>
      rw [hcf] at h
      rw [ih c2 c' h]
      exact concatFold_preserves dims v de hde hna dat c c2 hcf

theorem dlookup_map_copy (m : Dat) (v : String) :
    dlookup (m.map (fun p => (p.1, npCopy p.2))) v = (dlookup m v).map npCopy := by
  induction m with
  | nil => simp [dlookup]
  | cons p rest ih =>
    by_cases h : p.1 = v
    · simp [dlookup, h]
    · simp [dlookup, h, ih]

theorem npCopy_eq (a : NpArr) : npCopy a = a := rfl

theorem concat_granules_decomp (datList : List Dat) (dims : Dims)
    (cdat : Dat) (cdims : List (String × DimEntry))
    (h : concat_granules datList dims = .ok (cdat, cdims)) :
    ∃ first, datList.head? = some first ∧
      concatAll dims (first.map (fun p => (p.1, npCopy p.2))) datList.tail = .ok cdat ∧
      reconcileAll dims cdat = .ok cdims := by
  unfold concat_granules at h
  cases hh : datList.head? with
  | none => rw [hh] at h; exact Except.noConfusion h
  | some first =>
    simp only [hh] at h
    refine ⟨first, rfl, ?_⟩
    cases hca : concatAll dims (first.map (fun p => (p.1, npCopy p.2))) datList.tail with
    | error e => rw [hca] at h; exact Except.noConfusion h
    | ok cdat2 =>
      simp only [hca] at h
      cases hra : reconcileAll dims cdat2 with
      | error e => rw [hra] at h; exact Except.noConfusion h
      | ok cdims2 =>
        simp only [hra] at h
        obtain ⟨rfl, rfl⟩ : cdat2 = cdat ∧ cdims2 = cdims := by
          simpa [Prod.ext_iff] using h
        exact ⟨rfl, hra⟩

/-- Claim C6: for every non-empty list of loaded-granule records and every
variable whose dimension-name list does not contain atrack, the value
concat_granules produces for that variable equals the value of that
variable in the first input record, however many records are
aggregated. -/
theorem concat_granules_static_var
    (datList : List Dat) (dims : Dims) (cdat : Dat)
    (cdims : List (String × DimEntry)) (first : Dat)
    (v : String) (de : DimEntry) (a0 : NpArr)
    (hrun : concat_granules datList dims = .ok (cdat, cdims))
    (hfirst : datList.head? = some first)
    (hde : dlookup dims v = some de)
    (hna : "atrack" ∉ de.names)
    (ha0 : dlookup first v = some a0) :
    dlookup cdat v = some a0 := by
  obtain ⟨first2, hf2, hca, _⟩ := concat_granules_decomp datList dims cdat cdims hrun
  rw [hfirst] at hf2
  cases hf2
  have hna2 : ¬ de.names.contains "atrack" := by simpa using hna
  rw [concatAll_preserves dims v de hde hna2 datList.tail _ cdat hca]
  rw [dlookup_map_copy, ha0]
  rfl


theorem npConcat0_lead (a b : NpArr) :
    (npConcat0 a b).shape.headD 0 = a.shape.headD 0 + b.shape.headD 0 := by
  simp [npConcat0]

theorem concatFold_not_mem (dims : Dims) (v : String) :
    ∀ (dat c c' : Dat), v ∉ dat.map Prod.fst →
    concatFold dims c dat = .ok c' →
    dlookup c' v = dlookup c v := by
  intro dat
  induction dat with
  | nil =>
    intro c c' _ h
    unfold concatFold at h
    cases h
    rfl
  | cons p rest ih =>
    intro c c' hnm h
    unfold concatFold at h
    cases hcv : concatVar dims c p.1 p.2 with
    | error e => rw [hcv] at h; exact Except.noConfusion h
    | ok c2 =>
      rw [hcv] at h
      have hpv : p.1 ≠ v := by
        intro hh
        exact hnm (by simp [hh])
      rw [ih c2 c' (by simp at hnm; simp [hnm.2]) h]
      exact concatVar_ok_frame dims c c2 p.1 p.2 v hpv hcv

theorem dlookup_cons_self (p : String × α) (rest : List (String × α)) :
    dlookup (p :: rest) p.1 = some p.2 := by
  simp [dlookup]

theorem concatFold_atrack (dims : Dims) (v : String) (de : DimEntry)
    (hde : dlookup dims v = some de)
    (hatr : de.names.contains "atrack") (hne : de.names ≠ []) :
    ∀ (dat c c' : Dat), (dat.map Prod.fst).Nodup →
    concatFold dims c dat = .ok c' →
    ∀ a, dlookup dat v = some a →
    ∀ cur, dlookup c v = some cur →
    dlookup c' v = some (npConcat0 cur a) := by
  intro dat
  induction dat with
  | nil =>
    intro c c' _ _ a ha
    exact absurd ha (by simp [dlookup])
  | cons p rest ih =>
    intro c c' hnd h a ha cur hcur
    unfold concatFold at h
    cases hcv : concatVar dims c p.1 p.2 with
    | error e => rw [hcv] at h; exact Except.noConfusion h
    | ok c2 =>
      rw [hcv] at h
      by_cases hpv : p.1 = v
      · have hp2 : p.2 = a := by
          have hx : dlookup (p :: rest) v = some p.2 := by
            rw [← hpv]; exact dlookup_cons_self p rest
          rw [ha] at hx
          exact (Option.some.inj hx).symm
        have hstep := concatVar_ok_self_atrack dims c p.2 v de cur hde hatr hne hcur
        rw [hpv] at hcv
        rw [hstep] at hcv
        have hc2 : c2 = dset c v (npConcat0 cur p.2) := (Except.ok.inj hcv).symm
        have hvnm : v ∉ rest.map Prod.fst := by
          have := hnd
          simp only [List.map_cons, List.nodup_cons] at this
          rw [← hpv]
          exact this.1
        rw [concatFold_not_mem dims v rest c2 c' hvnm h, hc2, hp2]
        exact dlookup_dset_self c v (npConcat0 cur a)
      · have ha2 : dlookup rest v = some a := by
          have := ha
          unfold dlookup at this
          rw [if_neg hpv] at this
          exact this
        have hcur2 : dlookup c2 v = some cur := by
          rw [concatVar_ok_frame dims c c2 p.1 p.2 v hpv hcv]
          exact hcur
        have hnd2 : (rest.map Prod.fst).Nodup := by
          simp only [List.map_cons, List.nodup_cons] at hnd
          exact hnd.2
        exact ih c2 c' hnd2 h a ha2 cur hcur2

theorem concatAll_atrack (dims : Dims) (v : String) (de : DimEntry)
    (hde : dlookup dims v = some de)
    (hatr : de.names.contains "atrack") (hne : de.names ≠ []) :
    ∀ (rest : List Dat) (c c' : Dat),
    (∀ dat ∈ rest, (dat.map Prod.fst).Nodup) →
    (∀ dat ∈ rest, ∃ a, dlookup dat v = some a) →
    concatAll dims c rest = .ok c' →
    ∀ cur, dlookup c v = some cur →
    ∃ arr, dlookup c' v = some arr ∧
      arr.shape.headD 0 =
        cur.shape.headD 0 + (rest.map (fun dat => leadExtent dat v)).sum := by
  intro rest
  induction rest with
  | nil =>
    intro c c' _ _ h cur hcur
    unfold concatAll at h
    cases h
    exact ⟨cur, hcur, by simp⟩
  | cons dat rest2 ih =>
    intro c c' hnd hpres h cur hcur
    unfold concatAll at h
    cases hcf : concatFold dims c dat with
    | error e => rw [hcf] at h; exact Except.noConfusion h
    | ok c2 =>
      rw [hcf] at h
      obtain ⟨a, ha⟩ := hpres dat (by simp)
      have hc2 := concatFold_atrack dims v de hde hatr hne dat c c2
        (hnd dat (by simp)) hcf a ha cur hcur
      obtain ⟨arr, harr, hext⟩ := ih c2 c'
        (fun d hd => hnd d (by simp [hd]))
        (fun d hd => hpres d (by simp [hd])) h (npConcat0 cur a) hc2
      refine ⟨arr, harr, ?_⟩
      rw [hext, npConcat0_lead]
      have hla : leadExtent dat v = a.shape.headD 0 := by
        unfold leadExtent
        rw [ha]
      simp [hla]
      omega


theorem reconcileVar_key (dims : Dims) (w : String) (x : NpArr)
    (p : String × DimEntry) (h : reconcileVar dims w x = .ok p) :
    p.1 = w := by
  unfold reconcileVar at h
  cases hd : dlookup dims w with
  | none => rw [hd] at h; exact Except.noConfusion h
  | some de =>
    rw [hd] at h
    by_cases hc : de.names.length > 0 ∧ de.names.headD "" = "atrack"
    · simp only [if_pos hc] at h
      cases hs : x.shape.head? with
      | none => rw [hs] at h; exact Except.noConfusion h
      | some sz =>
        rw [hs] at h
        cases hz : de.sizes with
        | nil => rw [hz] at h; simp [pySetHead] at h
        | cons s0 t =>
          rw [hz] at h
          simp only [pySetHead] at h
          cases h
          rfl
    · simp only [if_neg hc] at h
      cases h
      rfl

theorem reconcileAll_lookup (dims : Dims) :
    ∀ (cdat : Dat) (cdims : List (String × DimEntry)) (v : String) (arr : NpArr),
    reconcileAll dims cdat = .ok cdims →
    dlookup cdat v = some arr →
    ∃ e, reconcileVar dims v arr = .ok (v, e) ∧ dlookup cdims v = some e := by
  intro cdat
  induction cdat with
  | nil =>
    intro cdims v arr _ hv
    exact absurd hv (by simp [dlookup])
  | cons p rest ih =>
    intro cdims v arr h hv
    unfold reconcileAll at h
    cases hrv : reconcileVar dims p.1 p.2 with
    | error e => rw [hrv] at h; exact Except.noConfusion h
    | ok entry =>
      rw [hrv] at h
      cases hra : reconcileAll dims rest with
      | error e => rw [hra] at h; exact Except.noConfusion h
      | ok tail =>
        rw [hra] at h
        have hcd : cdims = entry :: tail := (Except.ok.inj h).symm
        have hek : entry.1 = p.1 := reconcileVar_key dims p.1 p.2 entry hrv
        by_cases hpv : p.1 = v
        · have harr : p.2 = arr := by
            have hx : dlookup (p :: rest) v = some p.2 := by
              rw [← hpv]; exact dlookup_cons_self p rest
            rw [hv] at hx
            exact (Option.some.inj hx).symm
          refine ⟨entry.2, ?_, ?_⟩
          · rw [← hpv, ← harr]
            have hpair : (p.1, entry.2) = entry := by
              rw [← hek]
            rw [hpair]
            exact hrv
          · rw [hcd]
            unfold dlookup
            rw [hek, if_pos hpv]
        · have hv2 : dlookup rest v = some arr := by
            have := hv
            unfold dlookup at this
            rw [if_neg hpv] at this
            exact this
          obtain ⟨e, he1, he2⟩ := ih tail v arr hra hv2
          refine ⟨e, he1, ?_⟩
          rw [hcd]
          unfold dlookup
          rw [hek, if_neg hpv]
          exact he2

/-- Claim C5: for every run of concat_granules and every variable that carries
the atrack dimension as its leading axis and is present in every input
record, the reconciled leading dimension size reported in cdims equals
the sum over all input records of that variable's leading-axis extent. -/
theorem concat_granules_track_sum
    (datList : List Dat) (dims : Dims) (cdat : Dat)
    (cdims : List (String × DimEntry))
    (v : String) (de : DimEntry)
    (hrun : concat_granules datList dims = .ok (cdat, cdims))
    (hde : dlookup dims v = some de)
    (hne : de.names ≠ [])
    (hlead : de.names.headD "" = "atrack")
    (hnodup : ∀ dat ∈ datList, (dat.map Prod.fst).Nodup)
    (hpres : ∀ dat ∈ datList, ∃ a, dlookup dat v = some a) :
    ∃ e, dlookup cdims v = some e ∧
      e.sizes.head? = some ((datList.map (fun dat => leadExtent dat v)).sum) := by
  obtain ⟨first, hf, hca, hra⟩ := concat_granules_decomp datList dims cdat cdims hrun
  have hatr : de.names.contains "atrack" := by
    cases hn : de.names with
    | nil => exact absurd hn hne
    | cons n0 t =>
      have : n0 = "atrack" := by
        rw [hn] at hlead
        simpa using hlead
      simp [hn, this]
  -- the first record holds the variable
  have hfmem : first ∈ datList := by
    cases datList with
    | nil => exact Option.noConfusion hf
    | cons d rest => simp at hf; simp [hf]
  obtain ⟨a0, ha0⟩ := hpres first hfmem
  have hcur0 : dlookup (first.map (fun p => (p.1, npCopy p.2))) v = some a0 := by
    rw [dlookup_map_copy, ha0]
    rfl
  -- every tail record holds the variable with nodup keys
  have htail : ∀ dat ∈ datList.tail, dat ∈ datList := by
    intro dat hd
    cases datList with
    | nil => simp at hd
    | cons d rest => simp at hd; simp [hd]
  obtain ⟨arr, harr, hext⟩ := concatAll_atrack dims v de hde hatr hne
    datList.tail (first.map (fun p => (p.1, npCopy p.2))) cdat
    (fun dat hd => hnodup dat (htail dat hd))
    (fun dat hd => hpres dat (htail dat hd)) hca a0 hcur0
  obtain ⟨e, he1, he2⟩ := reconcileAll_lookup dims cdat cdims v arr hra harr
  refine ⟨e, he2, ?_⟩
  -- characterize e from reconcileVar under the atrack-leading hypotheses
  unfold reconcileVar at he1
  rw [hde] at he1
  have hcond : de.names.length > 0 ∧ de.names.headD "" = "atrack" := by
    constructor
    · cases hn : de.names with
      | nil => exact absurd hn hne
      | cons n0 t => simp [hn]
    · exact hlead
  simp only [if_pos hcond] at he1
  cases hs : arr.shape.head? with
  | none => rw [hs] at he1; exact Except.noConfusion he1
  | some sz =>
    rw [hs] at he1
    cases hz : de.sizes with
    | nil => rw [hz] at he1; simp [pySetHead] at he1
    | cons s0 t =>
      rw [hz] at he1
      simp only [pySetHead] at he1
      have he : e = ⟨de.names, sz :: t⟩ := by
        have := Except.ok.inj he1
        exact (congrArg Prod.snd this).symm
      rw [he]
      -- sz is the aggregate array's leading extent
      have hsz : sz = arr.shape.headD 0 := by
        cases hsh : arr.shape with
        | nil => rw [hsh] at hs; exact Option.noConfusion hs
        | cons x xs =>
          rw [hsh] at hs
          simp at hs
          simp [hsh, hs]
      -- the datList sum decomposes as first + tail
      have hsum : (datList.map (fun dat => leadExtent dat v)).sum =
          a0.shape.headD 0 + (datList.tail.map (fun dat => leadExtent dat v)).sum := by
        cases datList with
        | nil => exact Option.noConfusion hf
        | cons d rest =>
          have hd : d = first := by simpa using hf
          subst hd
          simp [leadExtent, ha0]
      rw [hsum, ← hext, ← hsz]
      rfl


theorem resolveOutputDtype_ok_nonobj (a : NpArr) (h : a.dtype ≠ .object) :
    resolveOutputDtype a = .ok (.native a.dtype) := by
  unfold resolveOutputDtype
  rw [if_neg h]

theorem resolveOutputDtype_ok_str (a : NpArr) (h1 : a.dtype = .object)
    (h2 : isStrHead a) : resolveOutputDtype a = .ok .pyStr := by
  unfold resolveOutputDtype
  rw [if_pos h1]
  unfold isStrHead at h2
  cases hh : a.flat.head? with
  | none => rw [hh] at h2; simp at h2
  | some e =>
    rw [hh] at h2
    cases e with
    | s str => rfl
    | i z => simp at h2
    | o n => simp at h2

theorem resolveOutputDtype_err (a : NpArr) (h1 : a.dtype = .object)
    (h2 : ¬ isStrHead a) (h3 : a.flat ≠ []) :
    resolveOutputDtype a = .error .valueError := by
  unfold resolveOutputDtype
  rw [if_pos h1]
  unfold isStrHead at h2
  cases hh : a.flat.head? with
  | none =>
    exact absurd (List.head?_eq_none_iff.mp hh) h3
  | some e =>
    rw [hh] at h2
    cases e with
    | s str => simp at h2
    | i z => rfl
    | o n => rfl

theorem writeVar_ok (dims : Dims) (attrs : Attrs) (v : String) (arr : NpArr)
    (am : List (String × PyElem)) (de : DimEntry) (od : OutDType)
    (ham : dlookup attrs v = some am) (hde : dlookup dims v = some de)
    (hod : resolveOutputDtype arr = .ok od) :
    writeVar dims attrs v arr =
      .ok ⟨v, od, de.names, dlookup am "_FillValue", arr,
           am.filter (fun p => p.1 ≠ "_FillValue")⟩ := by
  unfold writeVar
  rw [ham]
  simp only [hod, hde]

theorem writeVar_err_resolve (dims : Dims) (attrs : Attrs) (v : String)
    (arr : NpArr) (am : List (String × PyElem)) (e : Err)
    (ham : dlookup attrs v = some am) (hres : resolveOutputDtype arr = .error e) :
    writeVar dims attrs v arr = .error e := by
  unfold writeVar
  rw [ham]
  simp only [hres]

theorem writeVars_spec (dims : Dims) (attrs : Attrs) :
    ∀ (cdat : Dat),
    (∀ p ∈ cdat, ∃ am, dlookup attrs p.1 = some am) →
    (∀ p ∈ cdat, ∃ de, dlookup dims p.1 = some de) →
    (∀ p ∈ cdat, p.2.dtype = .object → p.2.flat ≠ []) →
    (cdat.map Prod.fst).Nodup →
    (((writeVars dims attrs cdat).2 = .ok ()) ↔
      (∀ p ∈ cdat, p.2.dtype = .object → isStrHead p.2)) ∧
    (∀ e, (writeVars dims attrs cdat).2 = .error e → e = .valueError) ∧
    (∀ p ∈ cdat, p.2.dtype = .object → isStrHead p.2 = false →
      ∀ ncv ∈ (writeVars dims attrs cdat).1, ncv.name ≠ p.1) ∧
    (∀ ncv ∈ (writeVars dims attrs cdat).1,
      ncv.dtype = (if ncv.data.dtype = .object then OutDType.pyStr
                   else .native ncv.data.dtype)) := by
  intro cdat
  induction cdat with
  | nil =>
    intro _ _ _ _
    refine ⟨by simp [writeVars], ?_, ?_, ?_⟩
    · intro e he
      simp [writeVars] at he
    · intro p hp
      simp at hp
    · intro ncv hncv
      simp [writeVars] at hncv
  | cons q rest ih =>
    intro hattrs hdims hnonempty hnodup
    obtain ⟨am, ham⟩ := hattrs q (by simp)
    obtain ⟨de, hde⟩ := hdims q (by simp)
    have hrest := ih
      (fun p hp => hattrs p (List.mem_cons_of_mem _ hp))
      (fun p hp => hdims p (List.mem_cons_of_mem _ hp))
      (fun p hp => hnonempty p (List.mem_cons_of_mem _ hp))
      (by simp only [List.map_cons, List.nodup_cons] at hnodup; exact hnodup.2)
    have hqmem : q.1 ∉ rest.map Prod.fst := by
      simp only [List.map_cons, List.nodup_cons] at hnodup
      exact hnodup.1
    by_cases hbad : q.2.dtype = .object ∧ isStrHead q.2 = false
    · -- head variable is the offending one: the write stops here
      have hne : q.2.flat ≠ [] := hnonempty q (by simp) hbad.1
      have hres := resolveOutputDtype_err q.2 hbad.1 (by simp [hbad.2]) hne
      have hwv := writeVar_err_resolve dims attrs q.1 q.2 am .valueError ham hres
      have hwvs : writeVars dims attrs (q :: rest) = ([], .error .valueError) := by
        unfold writeVars
        rw [hwv]
      refine ⟨?_, ?_, ?_, ?_⟩
      · rw [hwvs]
        simp only [iff_iff_implies_and_implies]
        constructor
        · intro h; exact absurd h (by simp)
        · intro h
          exact absurd (h q (by simp) hbad.1) (by simp [hbad.2])
      · intro e he
        rw [hwvs] at he
        simpa using he.symm
      · intro p _ _ _ ncv hncv
        rw [hwvs] at hncv
        simp at hncv
      · intro ncv hncv
        rw [hwvs] at hncv
        simp at hncv
    · -- head variable is written
      have hok : ∃ od, resolveOutputDtype q.2 = .ok od ∧
          od = (if q.2.dtype = .object then OutDType.pyStr else .native q.2.dtype) := by
        by_cases hobj : q.2.dtype = .object
        · have hstr : isStrHead q.2 = true := by
            rcases Bool.eq_false_or_eq_true (isStrHead q.2) with h | h
            · exact h
            · exact absurd ⟨hobj, h⟩ hbad
          exact ⟨.pyStr, resolveOutputDtype_ok_str q.2 hobj hstr, by simp [hobj]⟩
        · exact ⟨.native q.2.dtype, resolveOutputDtype_ok_nonobj q.2 hobj, by simp [hobj]⟩
      obtain ⟨od, hres, hodval⟩ := hok
      have hwv := writeVar_ok dims attrs q.1 q.2 am de od ham hde hres
      have hwvs : writeVars dims attrs (q :: rest) =
          (⟨q.1, od, de.names, dlookup am "_FillValue", q.2,
            am.filter (fun p => p.1 ≠ "_FillValue")⟩ ::
             (writeVars dims attrs rest).1,
           (writeVars dims attrs rest).2) := by
        conv_lhs => unfold writeVars
        rw [hwv]
      refine ⟨?_, ?_, ?_, ?_⟩
      · rw [hwvs]
        simp only []
        rw [hrest.1]
        constructor
        · intro h p hp hobj
          rcases List.mem_cons.mp hp with h2 | h2
          · subst h2
            rcases Bool.eq_false_or_eq_true (isStrHead p.2) with h3 | h3
            · exact h3
            · exact absurd ⟨hobj, h3⟩ hbad
          · exact h p h2 hobj
        · intro h p hp hobj
          exact h p (List.mem_cons_of_mem _ hp) hobj
      · intro e he
        rw [hwvs] at he
        exact hrest.2.1 e he
      · intro p hp hobj hstr ncv hncv
        rw [hwvs] at hncv
        rcases List.mem_cons.mp hncv with h2 | h2
        · -- ncv is the head variable; the bad p cannot be the head
          rcases List.mem_cons.mp hp with h3 | h3
          · subst h3
            exact absurd ⟨hobj, hstr⟩ hbad
          · subst h2
            simp only []
            intro hq
            exact hqmem (hq ▸ List.mem_map_of_mem Prod.fst h3)
        · exact hrest.2.2.1 p
            (by rcases List.mem_cons.mp hp with h3 | h3
                · subst h3; exact absurd ⟨hobj, hstr⟩ hbad
                · exact h3) hobj hstr ncv h2
      · intro ncv hncv
        rw [hwvs] at hncv
        rcases List.mem_cons.mp hncv with h2 | h2
        · subst h2
          simpa using hodval
        · exact hrest.2.2.2 ncv h2


/-- Claim C7: write_cdat raises the format error (ValueError), and never writes
the offending variable, exactly when some variable's array has the
generic object dtype with a non-string first element; object arrays of
strings are written with the str element type, and every written
variable's element type is its own dtype when not object. Stated for
inputs whose variables all have attribute and dimension entries and
whose object arrays are non-empty (first-element inspection defined). -/
theorem write_cdat_object_guard (cdat : Dat) (dims : Dims) (attrs : Attrs)
    (hattrs : ∀ p ∈ cdat, ∃ am, dlookup attrs p.1 = some am)
    (hdims : ∀ p ∈ cdat, ∃ de, dlookup dims p.1 = some de)
    (hnonempty : ∀ p ∈ cdat, p.2.dtype = .object → p.2.flat ≠ [])
    (hnodup : (cdat.map Prod.fst).Nodup) :
    (((write_cdat cdat dims attrs).2 = .ok ()) ↔
      (∀ p ∈ cdat, p.2.dtype = .object → isStrHead p.2)) ∧
    (∀ e, (write_cdat cdat dims attrs).2 = .error e → e = .valueError) ∧
    (∀ p ∈ cdat, p.2.dtype = .object → isStrHead p.2 = false →
      ∀ ncv ∈ (write_cdat cdat dims attrs).1.vars, ncv.name ≠ p.1) ∧
    (∀ ncv ∈ (write_cdat cdat dims attrs).1.vars,
      ncv.dtype = (if ncv.data.dtype = .object then OutDType.pyStr
                   else .native ncv.data.dtype)) :=
  writeVars_spec dims attrs cdat hattrs hdims hnonempty hnodup

theorem writeVars_fill (dims : Dims) (attrs : Attrs) :
    ∀ (cdat : Dat) (v : String) (a : NpArr) (am : List (String × PyElem)),
    (writeVars dims attrs cdat).2 = .ok () →
    (v, a) ∈ cdat →
    dlookup attrs v = some am →
    ∃ ncv, ncv ∈ (writeVars dims attrs cdat).1 ∧ ncv.name = v ∧
      ncv.fillValue = dlookup am "_FillValue" ∧
      ncv.wattrs = am.filter (fun p => p.1 ≠ "_FillValue") := by
  intro cdat
  induction cdat with
  | nil =>
    intro v a am _ hmem
    simp at hmem
  | cons q rest ih =>
    intro v a am hok hmem ham
    cases hwv : writeVar dims attrs q.1 q.2 with
    | error e =>
      have : (writeVars dims attrs (q :: rest)).2 = .error e := by
        unfold writeVars
        rw [hwv]
      rw [this] at hok
      exact Except.noConfusion hok
    | ok ncv0 =>
      have hwvs : writeVars dims attrs (q :: rest) =
          (ncv0 :: (writeVars dims attrs rest).1, (writeVars dims attrs rest).2) := by
        conv_lhs => unfold writeVars
        rw [hwv]
      have hok2 : (writeVars dims attrs rest).2 = .ok () := by
        rw [hwvs] at hok
        exact hok
      rcases List.mem_cons.mp hmem with h2 | h2
      · -- the requested variable is the head entry
        have hv : q.1 = v := by rw [← h2]
        have ha : q.2 = a := by rw [← h2]
        -- decompose writeVar's success
        unfold writeVar at hwv
        rw [hv, ham] at hwv
        cases hres : resolveOutputDtype q.2 with
        | error e => rw [hres] at hwv; exact Except.noConfusion hwv
        | ok od =>
          rw [hres] at hwv
          cases hd : dlookup dims v with
          | none => rw [hd] at hwv; exact Except.noConfusion hwv
          | some de =>
            rw [hd] at hwv
            have hncv0 : ncv0 = ⟨v, od, de.names, dlookup am "_FillValue", q.2,
                am.filter (fun p => p.1 ≠ "_FillValue")⟩ :=
              (Except.ok.inj hwv).symm
            refine ⟨ncv0, ?_, ?_, ?_, ?_⟩
            · rw [hwvs]; simp
            · rw [hncv0]
            · rw [hncv0]
            · rw [hncv0]
      · obtain ⟨ncv, hn1, hn2, hn3, hn4⟩ := ih v a am hok2 h2 ham
        refine ⟨ncv, ?_, hn2, hn3, hn4⟩
        rw [hwvs]
        exact List.mem_cons_of_mem _ hn1

/-- Claim C8: for every written variable, write_cdat passes the _FillValue
attribute (when present) to the creation step as the fill value (none
when absent), writes every other attribute through the generic attribute
write, and never writes _FillValue through the generic path. -/
theorem write_cdat_fill_value (cdat : Dat) (dims : Dims) (attrs : Attrs)
    (v : String) (a : NpArr) (am : List (String × PyElem))
    (hok : (write_cdat cdat dims attrs).2 = .ok ())
    (hmem : (v, a) ∈ cdat)
    (ham : dlookup attrs v = some am) :
    ∃ ncv, ncv ∈ (write_cdat cdat dims attrs).1.vars ∧ ncv.name = v ∧
      ncv.fillValue = dlookup am "_FillValue" ∧
      (∀ p ∈ am, p.1 ≠ "_FillValue" → p ∈ ncv.wattrs) ∧
      (∀ p ∈ ncv.wattrs, p.1 ≠ "_FillValue" ∧ p ∈ am) := by
  obtain ⟨ncv, h1, h2, h3, h4⟩ := writeVars_fill dims attrs cdat v a am hok hmem ham
  refine ⟨ncv, h1, h2, h3, ?_, ?_⟩
  · intro p hp hne
    rw [h4]
    simp only [List.mem_filter]
    exact ⟨hp, by simpa using hne⟩
  · intro p hp
    rw [h4] at hp
    simp only [List.mem_filter] at hp
    exact ⟨by simpa using hp.2, hp.1⟩


theorem halloc_frame (n : Nat) (h : Heap) (v : HVal) (hn : n ≤ h.next) :
    n ≤ (halloc h v).2.next ∧ (∀ i, i < n → (halloc h v).2.mem i = h.mem i) ∧
    n ≤ (halloc h v).1 := by
  refine ⟨by simp [halloc]; omega, ?_, by simp [halloc, hn]⟩
  intro i hi
  have : i ≠ h.next := by omega
  simp [halloc, this]

theorem hset_frame (n : Nat) (h : Heap) (j : Nat) (v : HVal)
    (hn : n ≤ h.next) (hj : n ≤ j) :
    n ≤ (hset h j v).next ∧ ∀ i, i < n → (hset h j v).mem i = h.mem i := by
  refine ⟨by simp [hset, hn], ?_⟩
  intro i hi
  have : i ≠ j := by omega
  simp [hset, this]

theorem copyArrRef_frame (n : Nat) (h : Heap) (r : Nat) (x : Nat × Heap)
    (hn : n ≤ h.next) (hc : copyArrRef h r = .ok x) :
    n ≤ x.2.next ∧ (∀ i, i < n → x.2.mem i = h.mem i) ∧ n ≤ x.1 := by
  unfold copyArrRef at hc
  cases ha : hgetArr h r with
  | error e => simp only [ha] at hc; exact Except.noConfusion hc
  | ok a =>
    simp only [ha] at hc
    have hx : x = halloc h (.arr (npCopy a)) := (Except.ok.inj hc).symm
    obtain ⟨h1, h2, h3⟩ := halloc_frame n h (.arr (npCopy a)) hn
    rw [hx]
    exact ⟨h1, h2, h3⟩

theorem seedCdat_frame (n : Nat) : ∀ (first : DatH) (h : Heap) (x : DatH × Heap),
    n ≤ h.next → seedCdat h first = .ok x →
    n ≤ x.2.next ∧ (∀ i, i < n → x.2.mem i = h.mem i) ∧
    ∀ p ∈ x.1, n ≤ p.2 := by
  intro first
  induction first with
  | nil =>
    intro h x hn hs
    unfold seedCdat at hs
    have hx : x = ([], h) := (Except.ok.inj hs).symm
    rw [hx]
    exact ⟨hn, fun i _ => rfl, by simp⟩
  | cons q rest ih =>
    intro h x hn hs
    unfold seedCdat at hs
    cases hc : copyArrRef h q.2 with
    | error e => simp only [hc] at hs; exact Except.noConfusion hs
    | ok rh =>
      simp only [hc] at hs
      cases ht : seedCdat rh.2 rest with
      | error e => simp only [ht] at hs; exact Except.noConfusion hs
      | ok th =>
        simp only [ht] at hs
        have hx : x = ((q.1, rh.1) :: th.1, th.2) := (Except.ok.inj hs).symm
        obtain ⟨c1, c2, c3⟩ := copyArrRef_frame n h q.2 rh hn hc
        obtain ⟨t1, t2, t3⟩ := ih rh.2 th c1 ht
        rw [hx]
        refine ⟨t1, fun i hi => (t2 i hi).trans (c2 i hi), ?_⟩
        intro p hp
        rcases List.mem_cons.mp hp with h2 | h2
        · rw [h2]; exact c3
        · exact t3 p h2

theorem concatVarH_frame (n : Nat) (dims : DimsH) (h : Heap) (cdat : DatH)
    (v : String) (r : Nat) (x : DatH × Heap)
    (hn : n ≤ h.next) (hcd : ∀ p ∈ cdat, n ≤ p.2)
    (hcv : concatVarH dims h cdat v r = .ok x) :
    n ≤ x.2.next ∧ (∀ i, i < n → x.2.mem i = h.mem i) ∧ ∀ p ∈ x.1, n ≤ p.2 := by
  unfold concatVarH at hcv
  cases hd : dlookup dims v with
  | none => simp only [hd] at hcv; exact Except.noConfusion hcv
  | some dref =>
    simp only [hd] at hcv
    cases hns : hgetStrs h dref.namesRef with
    | error e => simp only [hns] at hcv; exact Except.noConfusion hcv
    | ok names =>
      simp only [hns] at hcv
      by_cases h1 : names = []
      · simp only [if_pos h1] at hcv
        have hx : x = (cdat, h) := (Except.ok.inj hcv).symm
        rw [hx]
        exact ⟨hn, fun i _ => rfl, hcd⟩
      · simp only [if_neg h1] at hcv
        by_cases h2 : names.contains "atrack"
        · simp only [if_pos h2] at hcv
          cases hcr : dlookup cdat v with
          | none => simp only [hcr] at hcv; exact Except.noConfusion hcv
          | some cref =>
            simp only [hcr] at hcv
            cases hca : hgetArr h cref with
            | error e => simp only [hca] at hcv; exact Except.noConfusion hcv
            | ok cur =>
              simp only [hca] at hcv
              cases har : hgetArr h r with
              | error e => simp only [har] at hcv; exact Except.noConfusion hcv
              | ok a =>
                simp only [har] at hcv
                have hx : x = (dset cdat v (halloc h (.arr (npConcat0 cur a))).1,
                    (halloc h (.arr (npConcat0 cur a))).2) := (Except.ok.inj hcv).symm
                obtain ⟨a1, a2, a3⟩ := halloc_frame n h (.arr (npConcat0 cur a)) hn
                rw [hx]
                refine ⟨a1, a2, ?_⟩
                intro p hp
                rcases mem_dset cdat v _ p hp with h3 | h3
                · rw [h3]; exact a3
                · exact hcd p h3
        · simp only [if_neg h2] at hcv
          have hx : x = (cdat, h) := (Except.ok.inj hcv).symm
          rw [hx]
          exact ⟨hn, fun i _ => rfl, hcd⟩

theorem concatFoldH_frame (n : Nat) (dims : DimsH) :
    ∀ (dat : DatH) (h : Heap) (cdat : DatH) (x : DatH × Heap),
    n ≤ h.next → (∀ p ∈ cdat, n ≤ p.2) →
    concatFoldH dims h cdat dat = .ok x →
    n ≤ x.2.next ∧ (∀ i, i < n → x.2.mem i = h.mem i) ∧ ∀ p ∈ x.1, n ≤ p.2 := by
  intro dat
  induction dat with
  | nil =>
    intro h cdat x hn hcd hf
    unfold concatFoldH at hf
    have hx : x = (cdat, h) := (Except.ok.inj hf).symm
    rw [hx]
    exact ⟨hn, fun i _ => rfl, hcd⟩
  | cons q rest ih =>
    intro h cdat x hn hcd hf
    unfold concatFoldH at hf
    cases hcv : concatVarH dims h cdat q.1 q.2 with
    | error e => simp only [hcv] at hf; exact Except.noConfusion hf
    | ok ch =>
      simp only [hcv] at hf
      obtain ⟨c1, c2, c3⟩ := concatVarH_frame n dims h cdat q.1 q.2 ch hn hcd hcv
      obtain ⟨t1, t2, t3⟩ := ih ch.2 ch.1 x c1 c3 hf
      exact ⟨t1, fun i hi => (t2 i hi).trans (c2 i hi), t3⟩

theorem concatAllH_frame (n : Nat) (dims : DimsH) :
    ∀ (rest : List DatH) (h : Heap) (cdat : DatH) (x : DatH × Heap),
    n ≤ h.next → (∀ p ∈ cdat, n ≤ p.2) →
    concatAllH dims h cdat rest = .ok x →
    n ≤ x.2.next ∧ (∀ i, i < n → x.2.mem i = h.mem i) ∧ ∀ p ∈ x.1, n ≤ p.2 := by
  intro rest
  induction rest with
  | nil =>
    intro h cdat x hn hcd hf
    unfold concatAllH at hf
    have hx : x = (cdat, h) := (Except.ok.inj hf).symm
    rw [hx]
    exact ⟨hn, fun i _ => rfl, hcd⟩
  | cons dat rest2 ih =>
    intro h cdat x hn hcd hf
    unfold concatAllH at hf
    cases hcf : concatFoldH dims h cdat dat with
    | error e => simp only [hcf] at hf; exact Except.noConfusion hf
    | ok ch =>
      simp only [hcf] at hf
      obtain ⟨c1, c2, c3⟩ := concatFoldH_frame n dims dat h cdat ch hn hcd hcf
      obtain ⟨t1, t2, t3⟩ := ih ch.2 ch.1 x c1 c3 hf
      exact ⟨t1, fun i hi => (t2 i hi).trans (c2 i hi), t3⟩

theorem reconcileVarH_frame (n : Nat) (dims : DimsH) (h : Heap)
    (v : String) (r : Nat) (x : (String × DimRefs) × Heap)
    (hn : n ≤ h.next)
    (hr : reconcileVarH dims h v r = .ok x) :
    n ≤ x.2.next ∧ (∀ i, i < n → x.2.mem i = h.mem i) ∧
    n ≤ x.1.2.namesRef ∧ n ≤ x.1.2.sizesRef := by
  unfold reconcileVarH at hr
  cases hd : dlookup dims v with
  | none => simp only [hd] at hr; exact Except.noConfusion hr
  | some dref =>
    simp only [hd] at hr
    cases hns : hgetStrs h dref.namesRef with
    | error e => simp only [hns] at hr; exact Except.noConfusion hr
    | ok names =>
      simp only [hns] at hr
      cases hsz : hgetNats (halloc h (.strs names)).2 dref.sizesRef with
      | error e => simp only [hsz] at hr; exact Except.noConfusion hr
      | ok sizes =>
        simp only [hsz] at hr
        obtain ⟨n1, n2, n3⟩ := halloc_frame n h (.strs names) hn
        obtain ⟨s1, s2, s3⟩ :=
          halloc_frame n (halloc h (.strs names)).2 (.nats sizes) n1
        by_cases hc : names.length > 0 ∧ names.headD "" = "atrack"
        · simp only [if_pos hc] at hr
          cases ha : hgetArr (halloc (halloc h (.strs names)).2 (.nats sizes)).2 r with
          | error e => simp only [ha] at hr; exact Except.noConfusion hr
          | ok a =>
            simp only [ha] at hr
            cases hh : a.shape.head? with
            | none => simp only [hh] at hr; exact Except.noConfusion hr
            | some sz =>
              simp only [hh] at hr
              cases sizes with
              | nil => exact Except.noConfusion hr
              | cons s0 t =>
                have hx : x = ((v, ⟨(halloc h (.strs names)).1,
                    (halloc (halloc h (.strs names)).2 (.nats (s0 :: t))).1⟩),
                    hset (halloc (halloc h (.strs names)).2 (.nats (s0 :: t))).2
                      (halloc (halloc h (.strs names)).2 (.nats (s0 :: t))).1
                      (.nats (sz :: t))) := (Except.ok.inj hr).symm
                obtain ⟨w1, w2⟩ := hset_frame n
                  (halloc (halloc h (.strs names)).2 (.nats (s0 :: t))).2
                  (halloc (halloc h (.strs names)).2 (.nats (s0 :: t))).1
                  (.nats (sz :: t)) s1 s3
                rw [hx]
                refine ⟨w1, ?_, n3, s3⟩
                intro i hi
                exact ((w2 i hi).trans (s2 i hi)).trans (n2 i hi)
        · simp only [if_neg hc] at hr
          have hx : x = ((v, ⟨(halloc h (.strs names)).1,
              (halloc (halloc h (.strs names)).2 (.nats sizes)).1⟩),
              (halloc (halloc h (.strs names)).2 (.nats sizes)).2) :=
            (Except.ok.inj hr).symm
          rw [hx]
          exact ⟨s1, fun i hi => (s2 i hi).trans (n2 i hi), n3, s3⟩

theorem reconcileAllH_frame (n : Nat) (dims : DimsH) :
    ∀ (cdat : DatH) (h : Heap) (x : List (String × DimRefs) × Heap),
    n ≤ h.next →
    reconcileAllH dims h cdat = .ok x →
    n ≤ x.2.next ∧ (∀ i, i < n → x.2.mem i = h.mem i) ∧
    ∀ q ∈ x.1, n ≤ q.2.namesRef ∧ n ≤ q.2.sizesRef := by
  intro cdat
  induction cdat with
  | nil =>
    intro h x hn hr
    unfold reconcileAllH at hr
    have hx : x = ([], h) := (Except.ok.inj hr).symm
    rw [hx]
    exact ⟨hn, fun i _ => rfl, by simp⟩
  | cons q rest ih =>
    intro h x hn hr
    unfold reconcileAllH at hr
    cases he : reconcileVarH dims h q.1 q.2 with
    | error e => simp only [he] at hr; exact Except.noConfusion hr
    | ok eh =>
      simp only [he] at hr
      cases ht : reconcileAllH dims eh.2 rest with
      | error e => simp only [ht] at hr; exact Except.noConfusion hr
      | ok th =>
        simp only [ht] at hr
        have hx : x = (eh.1 :: th.1, th.2) := (Except.ok.inj hr).symm
        obtain ⟨e1, e2, e3, e4⟩ := reconcileVarH_frame n dims h q.1 q.2 eh hn he
        obtain ⟨t1, t2, t3⟩ := ih eh.2 th e1 ht
        rw [hx]
        refine ⟨t1, fun i hi => (t2 i hi).trans (e2 i hi), ?_⟩
        intro p hp
        rcases List.mem_cons.mp hp with h2 | h2
        · rw [h2]; exact ⟨e3, e4⟩
        · exact t3 p h2

/-- Claim C10: concat_granules mutates none of its inputs: every heap cell that
existed before the call (in particular every input record's array and the
dims name/size lists) holds the same value afterwards, every array
reference in the produced cdat is freshly allocated (a copy seeded from
the first record or a new concatenation), and the reconciled descriptors
reference freshly built name/size lists. -/
theorem concat_granulesH_no_mutation
    (datList : List DatH) (dims : DimsH) (h : Heap)
    (out : (DatH × List (String × DimRefs)) × Heap)
    (hrun : concat_granulesH datList dims h = .ok out) :
    (∀ i, i < h.next → out.2.mem i = h.mem i) ∧
    h.next ≤ out.2.next ∧
    (∀ p ∈ out.1.1, h.next ≤ p.2) ∧
    (∀ q ∈ out.1.2, h.next ≤ q.2.namesRef ∧ h.next ≤ q.2.sizesRef) := by
  unfold concat_granulesH at hrun
  cases hf : datList.head? with
  | none => simp only [hf] at hrun; exact Except.noConfusion hrun
  | some first =>
    simp only [hf] at hrun
    cases hs : seedCdat h first with
    | error e => simp only [hs] at hrun; exact Except.noConfusion hrun
    | ok sh =>
      simp only [hs] at hrun
      cases hc : concatAllH dims sh.2 sh.1 datList.tail with
      | error e => simp only [hc] at hrun; exact Except.noConfusion hrun
      | ok ch =>
        simp only [hc] at hrun
        cases hrc : reconcileAllH dims ch.2 ch.1 with
        | error e => simp only [hrc] at hrun; exact Except.noConfusion hrun
        | ok rh =>
          simp only [hrc] at hrun
          have hx : out = ((ch.1, rh.1), rh.2) := (Except.ok.inj hrun).symm
          obtain ⟨s1, s2, s3⟩ := seedCdat_frame h.next first h sh le_rfl hs
          obtain ⟨c1, c2, c3⟩ := concatAllH_frame h.next dims datList.tail
            sh.2 sh.1 ch s1 s3 hc
          obtain ⟨r1, r2, r3⟩ := reconcileAllH_frame h.next dims ch.1 ch.2 rh c1 hrc
          rw [hx]
          exact ⟨fun i hi => ((r2 i hi).trans (c2 i hi)).trans (s2 i hi),
                 r1, c3, r3⟩



theorem get_granule_list_c2_amended_witness :
    get_granule_list "20150101" [dayGranule, multiLinkGranule] =
      .ok (let gl1 := if ("20150101" : String) ≠ "20150101" then
             ([dayGranule, multiLinkGranule] : List Granule).tail
           else [dayGranule, multiLinkGranule]
           if ("20150102" : String) ≠ "20150101" then gl1.dropLast else gl1) :=
  get_granule_list_c2_amended "20150101" [dayGranule, multiLinkGranule]
    dayGranule multiLinkGranule "20150101" "20150102"
    (by decide) rfl rfl (by decide) (by decide)

theorem concat_granules_track_sum_witness :
    ∃ e, dlookup [("lat", DimEntry.mk ["atrack"] [5]),
                  ("land_frac", DimEntry.mk [] [])] "lat" = some e ∧
      e.sizes.head? =
        some ((([wDat1, wDat2]).map (fun dat => leadExtent dat "lat")).sum) :=
  concat_granules_track_sum [wDat1, wDat2] wDims
    [("lat", ⟨.numeric, [5], [.i 1, .i 2, .i 3, .i 4, .i 5]⟩),
     ("land_frac", wStatic1)]
    [("lat", ⟨["atrack"], [5]⟩), ("land_frac", ⟨[], []⟩)]
    "lat" ⟨["atrack"], [2]⟩
    (by decide) rfl (by decide) rfl (by decide)
    (by intro dat hd
        rcases List.mem_cons.mp hd with h | h
        · exact ⟨wArr1, by rw [h]; rfl⟩
        · rcases List.mem_cons.mp h with h2 | h2
          · exact ⟨wArr2, by rw [h2]; rfl⟩
          · simp at h2)

theorem concat_granules_static_var_witness :
    dlookup [("lat", NpArr.mk .numeric [5] [.i 1, .i 2, .i 3, .i 4, .i 5]),
             ("land_frac", wStatic1)] "land_frac" = some wStatic1 :=
  concat_granules_static_var [wDat1, wDat2] wDims
    [("lat", ⟨.numeric, [5], [.i 1, .i 2, .i 3, .i 4, .i 5]⟩),
     ("land_frac", wStatic1)]
    [("lat", ⟨["atrack"], [5]⟩), ("land_frac", ⟨[], []⟩)]
    wDat1 "land_frac" ⟨[], []⟩ wStatic1
    (by decide) rfl rfl (by decide) rfl

theorem write_cdat_object_guard_witness :
    (((write_cdat wCdat7 wDims7 wAttrs7).2 = .ok ()) ↔
      (∀ p ∈ wCdat7, p.2.dtype = .object → isStrHead p.2)) ∧
    (∀ e, (write_cdat wCdat7 wDims7 wAttrs7).2 = .error e → e = .valueError) ∧
    (∀ p ∈ wCdat7, p.2.dtype = .object → isStrHead p.2 = false →
      ∀ ncv ∈ (write_cdat wCdat7 wDims7 wAttrs7).1.vars, ncv.name ≠ p.1) ∧
    (∀ ncv ∈ (write_cdat wCdat7 wDims7 wAttrs7).1.vars,
      ncv.dtype = (if ncv.data.dtype = .object then OutDType.pyStr
                   else .native ncv.data.dtype)) :=
  write_cdat_object_guard wCdat7 wDims7 wAttrs7
    (by intro p hp
        rcases List.mem_cons.mp hp with h | h
        · exact ⟨[], by rw [h]; rfl⟩
        · rcases List.mem_cons.mp h with h2 | h2
          · exact ⟨[], by rw [h2]; rfl⟩
          · simp at h2)
    (by intro p hp
        rcases List.mem_cons.mp hp with h | h
        · exact ⟨⟨["atrack"], [1]⟩, by rw [h]; rfl⟩
        · rcases List.mem_cons.mp h with h2 | h2
          · exact ⟨⟨["atrack"], [2]⟩, by rw [h2]; rfl⟩
          · simp at h2)
    (by decide) (by decide)

theorem write_cdat_fill_value_witness :
    ∃ ncv, ncv ∈ (write_cdat wCdat8 wDims wAttrs8).1.vars ∧ ncv.name = "lat" ∧
      ncv.fillValue = dlookup [("_FillValue", PyElem.i (-9999)),
                               ("units", PyElem.s "K")] "_FillValue" ∧
      (∀ p ∈ [("_FillValue", PyElem.i (-9999)), ("units", PyElem.s "K")],
        p.1 ≠ "_FillValue" → p ∈ ncv.wattrs) ∧
      (∀ p ∈ ncv.wattrs, p.1 ≠ "_FillValue" ∧
        p ∈ [("_FillValue", PyElem.i (-9999)), ("units", PyElem.s "K")]) :=
  write_cdat_fill_value wCdat8 wDims wAttrs8 "lat" wArr1
    [("_FillValue", .i (-9999)), ("units", .s "K")]
    (by decide) (by decide) rfl

theorem load_granule_from_s3_transport_error_witness :
    (load_granule_from_s3 [1] (fun _ => .error 7) = .error .osError ↔
      ([1] : List Nat) = []) ∧
    (([1] : List Nat) ≠ [] → load_granule_from_s3 [1] (fun _ => .error 7) =
      match (fun (_ : List Nat) =>
          (.error 7 : Except Nat (Dat × Dims × Attrs))) [1] with
      | .ok r => .ok r
      | .error c => .error (.formatErr c)) :=
  load_granule_from_s3_transport_error [1] (fun _ => .error 7)

theorem concat_granulesH_no_mutation_witness :
    (∀ i, i < wHeap.next → wOut.2.mem i = wHeap.mem i) ∧
    wHeap.next ≤ wOut.2.next ∧
    (∀ p ∈ wOut.1.1, wHeap.next ≤ p.2) ∧
    (∀ q ∈ wOut.1.2, wHeap.next ≤ q.2.namesRef ∧ wHeap.next ≤ q.2.sizesRef) :=
  concat_granulesH_no_mutation wDatListH wDimsH wHeap wOut rfl


end Climcaps
